import Mathlib

/-!
Verification development for the FundingRateAnalysis backtest core
(`common_dse.py`).  The perpetual-futures backtest engines, the hold
baseline and the drawdown metric are embedded shallowly: pandas rows
become structures over `ℚ`, the row-wise mutation loop becomes a
left fold (`List.scanl`), and float arithmetic is modelled by exact
rational arithmetic.  Division by zero in `ℚ` yields `0`, matching the
explicit zero-guards of the source (`margin`, `change`) and the
`fillna(0)` in `max_drawdown`.
-/

namespace FundingRateAnalysis

/-- One aligned observation consumed by the single-leg engine: a row of
`input_df` with its `close` price and `funding_rate`. -/
structure Obs where
  close : ℚ
  funding_rate : ℚ
deriving Repr, DecidableEq, Inhabited

/-- One row of the single-leg ledger produced by `get_backtest_result`
(its per-index columns; the constant `leverage` column is carried as a
field set from the engine parameter). -/
structure AccountState where
  clt : ℚ
  leverage : ℚ
  entry : ℚ
  pos_size : ℚ
  change : ℚ
  change_pnl : ℚ
  funding : ℚ
  funding_pnl : ℚ
  margin : ℚ
  mm : ℚ
  mm_sl : ℚ
  is_liq : Bool
  is_sl : Bool
  fee : ℚ
  final_pnl : ℚ
deriving Repr, DecidableEq, Inhabited

/-- Row 0 of the single-leg ledger (the `index == 0` branch of
`get_backtest_result`): unit capital, opening fee `-fee*l`, all derived
fields zero, thresholds from `clt = 1`. -/
def initState (l fee maintenance_margin stop_loss_margin : ℚ) : AccountState :=
  { clt := 1
    leverage := l
    entry := 0
    pos_size := 0
    change := 0
    change_pnl := 0
    funding := 0
    funding_pnl := 0
    margin := 0
    mm := 1 * l * maintenance_margin
    mm_sl := 1 * l * stop_loss_margin
    is_liq := false
    is_sl := false
    fee := -fee * l
    final_pnl := 0 }

/-- The absorbing row written by the `new_clt == 0` branch of
`get_backtest_result`: every per-index column zeroed, flags cleared,
`final_pnl = -1`; the `leverage` column is untouched by that branch. -/
def deadState (l : ℚ) : AccountState :=
  { clt := 0
    leverage := l
    entry := 0
    pos_size := 0
    change := 0
    change_pnl := 0
    funding := 0
    funding_pnl := 0
    margin := 0
    mm := 0
    mm_sl := 0
    is_liq := false
    is_sl := false
    fee := 0
    final_pnl := -1 }

/-- The active-position block of the `index > 0` body of
`get_backtest_result` (the `else` branch on `new_clt`): price-change,
funding, margin, risk triggers, fee and realized P&L of the current
row, computed from the previous row `prev`, the current observation
`o`, the previous-trade flag `traded` and the fresh capital `new_clt`. -/
def activeStep (l fee maintenance_margin stop_loss_margin : ℚ)
    (prev : AccountState) (o : Obs) (traded : Bool) (new_clt : ℚ) : AccountState :=
  let price := o.close
  let funding_rate := o.funding_rate
  let clt : ℚ := max new_clt 0
  let entry : ℚ := if traded then price else prev.entry
  let pos_size : ℚ := price * clt * l
  let change : ℚ := if entry ≠ 0 then (price - entry) / entry else 0
  let change_pnl : ℚ := -|change * l|
  let funding : ℚ := (clt - change / 2) * funding_rate * l / 2
  let funding_pnl : ℚ := if traded then funding else funding + prev.funding_pnl
  let margin : ℚ := if clt ≠ 0 then (clt + change_pnl + funding_pnl) / clt else 0
  let mm : ℚ := clt * l * maintenance_margin
  let mm_sl : ℚ := clt * l * stop_loss_margin
  let is_liq : Bool := decide (margin < mm)
  let is_sl : Bool := decide (margin < mm_sl)
  let fee_now : ℚ := if is_liq || is_sl then -fee * l else 0
  { clt := clt
    leverage := l
    entry := entry
    pos_size := pos_size
    change := change
    change_pnl := change_pnl
    funding := funding
    funding_pnl := funding_pnl
    margin := margin
    mm := mm
    mm_sl := mm_sl
    is_liq := is_liq
    is_sl := is_sl
    fee := fee_now
    final_pnl := clt - 1 + funding_pnl }

/-- One iteration of the `index > 0` body of `get_backtest_result`:
from the previous row `prev` and the current observation `o`, either
the absorbing dead row (when the fresh capital is exactly zero) or the
active-position row. -/
def step (l fee maintenance_margin stop_loss_margin : ℚ)
    (prev : AccountState) (o : Obs) : AccountState :=
  let traded : Bool := decide (prev.fee ≠ 0)
  let new_clt : ℚ := prev.clt + prev.fee + (if traded then prev.funding_pnl else 0)
  if new_clt = 0 then
    deadState l
  else
    activeStep l fee maintenance_margin stop_loss_margin prev o traded new_clt

/-- The single-leg engine `get_backtest_result(input_df, l, fee,
maintenance_margin, stop_loss_margin)`: row 0 is the bootstrap row and
every later row is `step` applied to the previous row and the current
observation (the observation of row 0 is not read by the bootstrap). -/
def get_backtest_result (input_df : List Obs)
    (l fee maintenance_margin stop_loss_margin : ℚ) : List AccountState :=
  match input_df with
  | [] => []
  | _ :: rest =>
      List.scanl (step l fee maintenance_margin stop_loss_margin)
        (initState l fee maintenance_margin stop_loss_margin) rest

/-- One aligned observation consumed by the dual-leg engine loop: the
shared `close` price (the long leg's price is used for both legs) and
the two funding rates, `funding_short` already multiplied by
`long_funding_freq / short_funding_freq` as done when `short_df` is
built before the loop. -/
structure DualObs where
  close : ℚ
  funding_long : ℚ
  funding_short : ℚ
deriving Repr, DecidableEq, Inhabited

/-- Trade direction of a leg, the `side` string argument of `make_trade`. -/
inductive Side where
  | long : Side
  | short : Side
deriving Repr, DecidableEq, Inhabited

/-- One row of a leg ledger of the dual engine (the per-index columns of
the dataframes produced by `init_backtest_df` / `make_trade` /
`record_row`; the direction `d` is carried as a rational `1` / `-1`). -/
structure LegState where
  is_trade : Bool
  inj : ℚ
  eq : ℚ
  clt : ℚ
  leverage : ℚ
  entry : ℚ
  pos_size : ℚ
  d : ℚ
  change : ℚ
  change_pnl : ℚ
  funding : ℚ
  funding_pnl : ℚ
  margin : ℚ
  mm_sl : ℚ
  is_sl : Bool
  fee : ℚ
  pnl : ℚ
deriving Repr, DecidableEq, Inhabited

/-- The row contents written by `init_backtest_df(df, clt, leverage)`:
every row of the fresh leg dataframe is filled with this state (rows
past index 0 are overwritten by the loop, row 0 keeps it). -/
def init_backtest_df (clt leverage : ℚ) : LegState :=
  { is_trade := false
    inj := clt
    eq := clt
    clt := clt
    leverage := leverage
    entry := 0
    pos_size := 0
    d := 0
    change := 0
    change_pnl := 0
    funding := 0
    funding_pnl := 0
    margin := 0
    mm_sl := 0
    is_sl := false
    fee := 0
    pnl := 0 }

/-- The dual-leg trade/reopen row `make_trade(row, prev_row, fee_percent,
stop_loss_margin, side, inj)`.  `rowLev` is the `leverage` column value of
the incoming row (filled by `init_backtest_df`, hence the engine's
leverage parameter); `prev.leverage` is used for the position size,
exactly as in the source. -/
def make_trade (close rowLev : ℚ) (prev : LegState)
    (fee_percent stop_loss_margin : ℚ) (side : Side) (inj : ℚ) : LegState :=
  let price := close
  let d : ℚ := if side = Side.long then 1 else -1
  let new_clt : ℚ := prev.clt + prev.change_pnl + prev.funding_pnl + inj
  let fee : ℚ := new_clt * rowLev * fee_percent
  let new_clt2 : ℚ := new_clt - fee
  let clt : ℚ := max new_clt2 0
  let margin : ℚ := clt
  let mm_sl : ℚ := clt * rowLev * stop_loss_margin
  { is_trade := true
    inj := inj
    eq := prev.eq + inj
    clt := clt
    leverage := rowLev
    entry := price
    pos_size := clt * prev.leverage * d / price
    d := d
    change := 0
    change_pnl := 0
    funding := 0
    funding_pnl := 0
    margin := margin
    mm_sl := mm_sl
    is_sl := decide (margin < mm_sl)
    fee := fee
    pnl := margin - (prev.eq + inj) }

/-- The dual-leg no-trade row `record_row(row, prev_row,
stop_loss_margin)`: position carried forward, signed absolute price
change, signed directional P&L, funding accrued on the position. -/
def record_row (close funding_rate rowLev : ℚ) (prev : LegState)
    (stop_loss_margin : ℚ) : LegState :=
  let price := close
  let clt : ℚ := prev.clt
  let entry : ℚ := prev.entry
  let pos_size : ℚ := prev.pos_size
  let change : ℚ := price - entry
  let change_pnl : ℚ := change * pos_size
  let funding : ℚ := -funding_rate * pos_size * price
  let funding_pnl : ℚ := prev.funding_pnl + funding
  let margin : ℚ := clt + change_pnl + funding_pnl
  let mm_sl : ℚ := clt * rowLev * stop_loss_margin
  { is_trade := false
    inj := 0
    eq := prev.eq + 0
    clt := clt
    leverage := rowLev
    entry := entry
    pos_size := pos_size
    d := prev.d
    change := change
    change_pnl := change_pnl
    funding := funding
    funding_pnl := funding_pnl
    margin := margin
    mm_sl := mm_sl
    is_sl := decide (margin < mm_sl)
    fee := 0
    pnl := margin - (prev.eq + 0) }

/-- One iteration of the `index > 1` body of `get_dual_backtest_result`:
if either leg was stopped out at the previous row, both legs re-open with
the margin-equalizing injections, otherwise both legs record. -/
def dual_step (lev fee_percent stop_loss_margin : ℚ)
    (prev : LegState × LegState) (o : DualObs) : LegState × LegState :=
  if prev.1.is_sl || prev.2.is_sl then
    let avg_margin : ℚ := (prev.1.margin + prev.2.margin) / 2
    (make_trade o.close lev prev.1 fee_percent stop_loss_margin Side.long
        (avg_margin - prev.1.margin),
      make_trade o.close lev prev.2 fee_percent stop_loss_margin Side.short
        (avg_margin - prev.2.margin))
  else
    (record_row o.close o.funding_long lev prev.1 stop_loss_margin,
      record_row o.close o.funding_short lev prev.2 stop_loss_margin)

/-- The paired leg ledgers produced by the loop of
`get_dual_backtest_result(long_df, short_df, ..., leverage, init_clt,
fee_percent, stop_loss_margin)`: row 0 holds the `init_backtest_df`
fill with `init_clt / 2` per leg, row 1 (when present) is the
unconditional `first_trade` with zero injection, and every later row is
`dual_step`.  The upstream merge and funding-frequency normalization is
assumed done in the `DualObs` sequence. -/
def get_dual_backtest_result (df : List DualObs)
    (leverage init_clt fee_percent stop_loss_margin : ℚ) :
    List (LegState × LegState) :=
  match df with
  | [] => []
  | _ :: rest =>
      let s0 : LegState × LegState :=
        (init_backtest_df (init_clt / 2) leverage,
          init_backtest_df (init_clt / 2) leverage)
      match rest with
      | [] => [s0]
      | o1 :: rest2 =>
          let s1 : LegState × LegState :=
            (make_trade o1.close leverage s0.1 fee_percent stop_loss_margin
                Side.long 0,
              make_trade o1.close leverage s0.2 fee_percent stop_loss_margin
                Side.short 0)
          s0 :: List.scanl (dual_step leverage fee_percent stop_loss_margin)
            s1 rest2

/-- Running maximum of a list, the `cummax()` of the equity curve in
`max_drawdown`. -/
def cummax (l : List ℚ) : List ℚ :=
  match l with
  | [] => []
  | x :: xs => List.scanl max x xs

/-- The `max_drawdown(series)` metric: equity `pnl + 1`, its running
maximum, relative drawdowns, minimum.  Division by zero in `ℚ` yields
`0`, which plays the role of the `fillna(0)` applied to the `0/0 = NaN`
entries; the result is `none` exactly on the empty series (where pandas
`min()` has no value). -/
def max_drawdown (series : List ℚ) : Option ℚ :=
  let equity_curve := series.map (· + 1)
  let cumulative_max := cummax equity_curve
  let drawdowns := List.zipWith (fun e m => (e - m) / m) equity_curve cumulative_max
  match drawdowns with
  | [] => none
  | d :: ds => some (ds.foldl min d)

/-- One row of the price series consumed by `get_hodl_result`: its sort
key `datetime` (modelled as a rational timestamp) and its `close`. -/
structure PriceRow where
  datetime : ℚ
  close : ℚ
deriving Repr, DecidableEq, Inhabited

/-- Stable insertion of a row into a `datetime`-sorted list, the helper
for the model of `df.sort_values(by='datetime', ascending=True)`. -/
def insertByDatetime (r : PriceRow) : List PriceRow → List PriceRow
  | [] => [r]
  | x :: xs =>
      if r.datetime ≤ x.datetime then r :: x :: xs else x :: insertByDatetime r xs

/-- Model of `df.sort_values(by='datetime', ascending=True)` as an
insertion sort keyed on `datetime` only. -/
def sortByDatetime : List PriceRow → List PriceRow
  | [] => []
  | x :: xs => insertByDatetime x (sortByDatetime xs)

/-- The `pnl` column of `get_hodl_result(input_df)`: rows sorted by
`datetime`, then `(close_t - close_0) / close_0` against the first
sorted close. -/
def get_hodl_result (input_df : List PriceRow) : List ℚ :=
  let sorted := sortByDatetime input_df
  match sorted with
  | [] => []
  | first :: _ =>
      sorted.map (fun r => (r.close - first.close) / first.close)

/-- Uniform price scaling of a series: every `close` multiplied by a
factor, datetimes untouched. -/
def scaleCloses (lam : ℚ) (df : List PriceRow) : List PriceRow :=
  df.map (fun r => { r with close := lam * r.close })

/-- Every element of a `scanl` ledger satisfies an invariant that holds
of the seed and is preserved by the step function. -/
theorem scanl_invariant {α β : Type} (f : β → α → β) (P : β → Prop)
    (hstep : ∀ s a, P s → P (f s a)) :
    ∀ (l : List α) (b : β), P b → ∀ x ∈ List.scanl f b l, P x
  | [], b, hb, x, hx => by
      simp only [List.scanl_nil, List.mem_singleton] at hx
      exact hx ▸ hb
  | a :: l, b, hb, x, hx => by
      simp only [List.scanl_cons, List.singleton_append, List.mem_cons] at hx
      rcases hx with rfl | hx
      · exact hb
      · exact scanl_invariant f P hstep l (f b a) (hstep b a hb) x hx

/-- Every element of a `scanl` ledger is the seed or an output of the
step function. -/
theorem mem_scanl {α β : Type} (f : β → α → β) :
    ∀ (l : List α) (b : β), ∀ x ∈ List.scanl f b l, x = b ∨ ∃ s a, x = f s a
  | [], b, x, hx => by
      simp only [List.scanl_nil, List.mem_singleton] at hx
      exact Or.inl hx
  | a :: l, b, x, hx => by
      simp only [List.scanl_cons, List.singleton_append, List.mem_cons] at hx
      rcases hx with rfl | hx
      · exact Or.inl rfl
      · rcases mem_scanl f l (f b a) x hx with rfl | h
        · exact Or.inr ⟨b, a, rfl⟩
        · exact Or.inr h

/-- The first element of a `scanl` ledger is its seed. -/
theorem scanl_getElem!_zero {α β : Type} [Inhabited β] (f : β → α → β)
    (l : List α) (b : β) : (List.scanl f b l)[0]! = b := by
  cases l <;> simp

/-- Each later element of a `scanl` ledger is the step function applied
to the previous element and the matching input. -/
theorem scanl_getElem!_succ {α β : Type} [Inhabited α] [Inhabited β] (f : β → α → β) :
    ∀ (l : List α) (b : β) (i : ℕ), i + 1 < (List.scanl f b l).length →
      (List.scanl f b l)[i + 1]! = f ((List.scanl f b l)[i]!) (l[i]!)
  | [], _, i, h => by simp at h
  | a :: l, b, 0, _ => by
      simp only [List.scanl_cons, List.singleton_append, List.getElem!_cons_succ,
        List.getElem!_cons_zero]
      exact scanl_getElem!_zero f l (f b a)
  | a :: l, b, i + 1, h => by
      simp only [List.scanl_cons, List.singleton_append, List.getElem!_cons_succ]
      refine scanl_getElem!_succ f l (f b a) i ?_
      simp only [List.scanl_cons, List.singleton_append, List.length_cons,
        List.length_scanl] at h ⊢
      omega

/-- Folding `min` over a list never exceeds the starting value. -/
theorem foldl_min_le : ∀ (l : List ℚ) (a : ℚ), List.foldl min a l ≤ a
  | [], a => le_refl a
  | x :: l, a => le_trans (foldl_min_le l (min a x)) (min_le_left a x)

theorem activeStep_clt_eq (l fee maint slm : ℚ) (s : AccountState) (o : Obs)
    (tr : Bool) (nc : ℚ) :
    (activeStep l fee maint slm s o tr nc).clt = max nc 0 := rfl

theorem activeStep_margin_eq (l fee maint slm : ℚ) (s : AccountState) (o : Obs)
    (tr : Bool) (nc : ℚ) :
    (activeStep l fee maint slm s o tr nc).margin =
      if (activeStep l fee maint slm s o tr nc).clt ≠ 0 then
        ((activeStep l fee maint slm s o tr nc).clt +
            (activeStep l fee maint slm s o tr nc).change_pnl +
            (activeStep l fee maint slm s o tr nc).funding_pnl) /
          (activeStep l fee maint slm s o tr nc).clt
      else 0 := rfl

theorem activeStep_mm_eq (l fee maint slm : ℚ) (s : AccountState) (o : Obs)
    (tr : Bool) (nc : ℚ) :
    (activeStep l fee maint slm s o tr nc).mm =
      (activeStep l fee maint slm s o tr nc).clt * l * maint := rfl

theorem activeStep_mm_sl_eq (l fee maint slm : ℚ) (s : AccountState) (o : Obs)
    (tr : Bool) (nc : ℚ) :
    (activeStep l fee maint slm s o tr nc).mm_sl =
      (activeStep l fee maint slm s o tr nc).clt * l * slm := rfl

theorem activeStep_is_liq_eq (l fee maint slm : ℚ) (s : AccountState) (o : Obs)
    (tr : Bool) (nc : ℚ) :
    (activeStep l fee maint slm s o tr nc).is_liq =
      decide ((activeStep l fee maint slm s o tr nc).margin <
        (activeStep l fee maint slm s o tr nc).mm) := rfl

theorem activeStep_is_sl_eq (l fee maint slm : ℚ) (s : AccountState) (o : Obs)
    (tr : Bool) (nc : ℚ) :
    (activeStep l fee maint slm s o tr nc).is_sl =
      decide ((activeStep l fee maint slm s o tr nc).margin <
        (activeStep l fee maint slm s o tr nc).mm_sl) := rfl

theorem activeStep_fee_eq (l fee maint slm : ℚ) (s : AccountState) (o : Obs)
    (tr : Bool) (nc : ℚ) :
    (activeStep l fee maint slm s o tr nc).fee =
      if (activeStep l fee maint slm s o tr nc).is_liq ||
          (activeStep l fee maint slm s o tr nc).is_sl then -fee * l
      else 0 := rfl

theorem activeStep_final_pnl_eq (l fee maint slm : ℚ) (s : AccountState) (o : Obs)
    (tr : Bool) (nc : ℚ) :
    (activeStep l fee maint slm s o tr nc).final_pnl =
      (activeStep l fee maint slm s o tr nc).clt - 1 +
        (activeStep l fee maint slm s o tr nc).funding_pnl := rfl

/-- A `step` output is either the dead row or an active row with a
nonzero fresh capital. -/
theorem step_cases (l fee maint slm : ℚ) (s : AccountState) (o : Obs) :
    step l fee maint slm s o = deadState l ∨
      ∃ nc : ℚ, nc ≠ 0 ∧
        step l fee maint slm s o =
          activeStep l fee maint slm s o (decide (s.fee ≠ 0)) nc := by
  by_cases hc :
      s.clt + s.fee + (if decide (s.fee ≠ 0) = true then s.funding_pnl else 0) = 0
  · left
    unfold step
    dsimp only
    rw [if_pos hc]
  · right
    refine ⟨_, hc, ?_⟩
    unfold step
    dsimp only
    rw [if_neg hc]

/-- Capital of any `step` output is non-negative. -/
theorem step_clt_nonneg (l fee maint slm : ℚ) (s : AccountState) (o : Obs) :
    0 ≤ (step l fee maint slm s o).clt := by
  rcases step_cases l fee maint slm s o with h | ⟨nc, _, h⟩
  · rw [h]; norm_num [deadState]
  · rw [h, activeStep_clt_eq]; exact le_max_right _ _

/-- If an active row has zero capital, its margin, thresholds and risk
flags collapse and no fee is charged. -/
theorem activeStep_fee_zero_of_clt_zero (l fee maint slm : ℚ) (s : AccountState)
    (o : Obs) (tr : Bool) (nc : ℚ)
    (h : (activeStep l fee maint slm s o tr nc).clt = 0) :
    (activeStep l fee maint slm s o tr nc).fee = 0 := by
  have hm : (activeStep l fee maint slm s o tr nc).margin = 0 := by
    rw [activeStep_margin_eq, h]; simp
  have hmm : (activeStep l fee maint slm s o tr nc).mm = 0 := by
    rw [activeStep_mm_eq, h]; ring
  have hmmsl : (activeStep l fee maint slm s o tr nc).mm_sl = 0 := by
    rw [activeStep_mm_sl_eq, h]; ring
  rw [activeStep_fee_eq, activeStep_is_liq_eq, activeStep_is_sl_eq, hm, hmm, hmmsl]
  simp

/-- A zero-capital row of the ledger charges no fee. -/
theorem step_fee_zero_of_clt_zero (l fee maint slm : ℚ) (s : AccountState) (o : Obs)
    (h : (step l fee maint slm s o).clt = 0) : (step l fee maint slm s o).fee = 0 := by
  rcases step_cases l fee maint slm s o with heq | ⟨nc, _, heq⟩
  · rw [heq]; rfl
  · rw [heq] at h ⊢
    exact activeStep_fee_zero_of_clt_zero l fee maint slm s o _ nc h

/-- From a fee-free zero-capital row, the next row is the dead row. -/
theorem step_dead (l fee maint slm : ℚ) (s : AccountState) (o : Obs)
    (h1 : s.clt = 0) (h2 : s.fee = 0) :
    step l fee maint slm s o = deadState l := by
  unfold step
  dsimp only
  rw [if_pos]
  simp [h1, h2]

/-- A ledger started from a dead-like row (zero capital, zero fee,
`final_pnl = -1`) stays dead at every index. -/
theorem scanl_step_all_dead (l fee maint slm : ℚ) :
    ∀ (rest : List Obs) (s : AccountState), s.clt = 0 → s.fee = 0 →
      s.final_pnl = -1 →
      ∀ k : ℕ, k < (List.scanl (step l fee maint slm) s rest).length →
        ((List.scanl (step l fee maint slm) s rest)[k]!).clt = 0 ∧
          ((List.scanl (step l fee maint slm) s rest)[k]!).final_pnl = -1
  | [], s, h1, _, h3, 0, _ => by
      simpa using ⟨h1, h3⟩
  | [], _, _, _, _, k + 1, hk => by
      simp at hk
  | o :: rest, s, h1, h3, h4, 0, _ => by
      simp only [List.scanl_cons, List.singleton_append, List.getElem!_cons_zero]
      exact ⟨h1, h4⟩
  | o :: rest, s, h1, h3, h4, k + 1, hk => by
      simp only [List.scanl_cons, List.singleton_append, List.getElem!_cons_succ]
      have hd := step_dead l fee maint slm s o h1 h3
      refine scanl_step_all_dead l fee maint slm rest (step l fee maint slm s o)
        (by rw [hd]; rfl) (by rw [hd]; rfl) (by rw [hd]; rfl) k ?_
      simp only [List.scanl_cons, List.singleton_append, List.length_cons] at hk
      omega

/-- In a ledger whose seed charges a fee whenever it still has capital,
a zero-capital row is absorbing: every later row has zero capital and
`final_pnl = -1`. -/
theorem scanl_step_absorbing (l fee maint slm : ℚ) :
    ∀ (rest : List Obs) (s : AccountState), (s.clt = 0 → s.fee = 0) →
      ∀ i j : ℕ, i < j →
        j < (List.scanl (step l fee maint slm) s rest).length →
        ((List.scanl (step l fee maint slm) s rest)[i]!).clt = 0 →
        ((List.scanl (step l fee maint slm) s rest)[j]!).clt = 0 ∧
          ((List.scanl (step l fee maint slm) s rest)[j]!).final_pnl = -1
  | [], _, _, i, j, hij, hj, _ => by
      simp only [List.scanl_nil, List.length_cons, List.length_nil] at hj
      omega
  | _ :: _, _, _, _, 0, hij, _, _ => by omega
  | o :: rest, s, hs, 0, j + 1, _, hj, h0 => by
      simp only [List.scanl_cons, List.singleton_append, List.getElem!_cons_zero] at h0
      simp only [List.scanl_cons, List.singleton_append, List.getElem!_cons_succ]
      have hd := step_dead l fee maint slm s o h0 (hs h0)
      refine scanl_step_all_dead l fee maint slm rest _
        (by rw [hd]; rfl) (by rw [hd]; rfl) (by rw [hd]; rfl) j ?_
      simp only [List.scanl_cons, List.singleton_append, List.length_cons] at hj
      omega
  | o :: rest, s, _, i + 1, j + 1, hij, hj, h0 => by
      simp only [List.scanl_cons, List.singleton_append, List.getElem!_cons_succ] at h0 ⊢
      refine scanl_step_absorbing l fee maint slm rest (step l fee maint slm s o)
        (step_fee_zero_of_clt_zero l fee maint slm s o) i j (by omega) ?_ h0
      simp only [List.scanl_cons, List.singleton_append, List.length_cons] at hj
      omega

/-- Scenario A input: flat price, zero funding, three observations. -/
def dfA : List Obs := [⟨100, 0⟩, ⟨100, 0⟩, ⟨100, 0⟩]

/-- The row Scenario A reaches at step 1 (and keeps at step 2). -/
def stateA1 : AccountState :=
  { clt := 0.995
    leverage := 5
    entry := 100
    pos_size := 497.5
    change := 0
    change_pnl := 0
    funding := 0
    funding_pnl := 0
    margin := 1
    mm := 0.24875
    mm_sl := 0.3109375
    is_liq := false
    is_sl := false
    fee := 0
    final_pnl := -0.005 }

theorem stepA1 :
    step 5 0.001 0.05 0.0625 (initState 5 0.001 0.05 0.0625) ⟨100, 0⟩ = stateA1 := by
  simp only [step, activeStep, initState, stateA1]
  norm_num [max_def, abs_eq_max_neg]

theorem stepA2 : step 5 0.001 0.05 0.0625 stateA1 ⟨100, 0⟩ = stateA1 := by
  simp only [step, activeStep, stateA1]
  norm_num [max_def, abs_eq_max_neg]

theorem ledgerA_eq :
    get_backtest_result dfA 5 0.001 0.05 0.0625 =
      [initState 5 0.001 0.05 0.0625, stateA1, stateA1] := by
  simp [get_backtest_result, dfA, stepA1, stepA2]

/-- Crash-scenario input: flat price twice, then a 50% drop. -/
def df3 : List Obs := [⟨100, 0⟩, ⟨100, 0⟩, ⟨50, 0⟩]

/-- The row the crash scenario reaches at step 2: both risk triggers
fire and the forced-close fee is charged on the same step. -/
def state3 : AccountState :=
  { clt := 0.995
    leverage := 5
    entry := 100
    pos_size := 248.75
    change := -0.5
    change_pnl := -2.5
    funding := 0
    funding_pnl := 0
    margin := -(301 / 199)
    mm := 0.24875
    mm_sl := 0.3109375
    is_liq := true
    is_sl := true
    fee := -0.005
    final_pnl := -0.005 }

theorem step32 : step 5 0.001 0.05 0.0625 stateA1 ⟨50, 0⟩ = state3 := by
  simp only [step, activeStep, stateA1, state3]
  norm_num [max_def, abs_eq_max_neg]

theorem ledger3_eq :
    get_backtest_result df3 5 0.001 0.05 0.0625 =
      [initState 5 0.001 0.05 0.0625, stateA1, state3] := by
  simp [get_backtest_result, df3, stepA1, step32]

/-- Ruin-scenario input for the absorbing-state claim: with leverage 1
and a 100% fee the opening fee wipes the account at step 1. -/
def dfW : List Obs := [⟨100, 0⟩, ⟨100, 0⟩, ⟨100, 0⟩]

theorem stepW1 :
    step 1 1 0.05 0.0625 (initState 1 1 0.05 0.0625) ⟨100, 0⟩ = deadState 1 := by
  simp only [step, initState]
  norm_num

theorem stepW2 : step 1 1 0.05 0.0625 (deadState 1) ⟨100, 0⟩ = deadState 1 :=
  step_dead 1 1 0.05 0.0625 (deadState 1) ⟨100, 0⟩ rfl rfl

theorem ledgerW_eq :
    get_backtest_result dfW 1 1 0.05 0.0625 =
      [initState 1 1 0.05 0.0625, deadState 1, deadState 1] := by
  simp [get_backtest_result, dfW, stepW1, stepW2]

theorem make_trade_inj_proj (close rowLev : ℚ) (prev : LegState)
    (fee_percent slm : ℚ) (side : Side) (inj : ℚ) :
    (make_trade close rowLev prev fee_percent slm side inj).inj = inj := rfl

theorem make_trade_eq_proj (close rowLev : ℚ) (prev : LegState)
    (fee_percent slm : ℚ) (side : Side) (inj : ℚ) :
    (make_trade close rowLev prev fee_percent slm side inj).eq = prev.eq + inj := rfl

theorem make_trade_clt_nonneg (close rowLev : ℚ) (prev : LegState)
    (fee_percent slm : ℚ) (side : Side) (inj : ℚ) :
    0 ≤ (make_trade close rowLev prev fee_percent slm side inj).clt :=
  le_max_right _ _

theorem make_trade_is_sl_proj (close rowLev : ℚ) (prev : LegState)
    (fee_percent slm : ℚ) (side : Side) (inj : ℚ) :
    (make_trade close rowLev prev fee_percent slm side inj).is_sl =
      decide ((make_trade close rowLev prev fee_percent slm side inj).clt <
        (make_trade close rowLev prev fee_percent slm side inj).clt * rowLev * slm) :=
  rfl

theorem record_row_clt_proj (close funding_rate rowLev : ℚ) (prev : LegState)
    (slm : ℚ) : (record_row close funding_rate rowLev prev slm).clt = prev.clt := rfl

theorem record_row_eq_proj (close funding_rate rowLev : ℚ) (prev : LegState)
    (slm : ℚ) : (record_row close funding_rate rowLev prev slm).eq = prev.eq + 0 := rfl

/-- A `dual_step` keeps both leg capitals non-negative. -/
theorem dual_step_clt_nonneg (lev fee2 slm2 : ℚ) (prev : LegState × LegState)
    (o : DualObs) (h : 0 ≤ prev.1.clt ∧ 0 ≤ prev.2.clt) :
    0 ≤ (dual_step lev fee2 slm2 prev o).1.clt ∧
      0 ≤ (dual_step lev fee2 slm2 prev o).2.clt := by
  unfold dual_step
  split
  · exact ⟨make_trade_clt_nonneg _ _ _ _ _ _ _, make_trade_clt_nonneg _ _ _ _ _ _ _⟩
  · constructor
    · rw [record_row_clt_proj]; exact h.1
    · rw [record_row_clt_proj]; exact h.2

/-- On a rebalancing step the two injections cancel. -/
theorem dual_step_inj_sum (lev fee2 slm2 : ℚ) (prev : LegState × LegState)
    (o : DualObs) (h : prev.1.is_sl = true ∨ prev.2.is_sl = true) :
    (dual_step lev fee2 slm2 prev o).1.inj +
      (dual_step lev fee2 slm2 prev o).2.inj = 0 := by
  unfold dual_step
  rw [if_pos (by rcases h with h | h <;> simp [h])]
  dsimp only
  rw [make_trade_inj_proj, make_trade_inj_proj]
  ring

/-- A `dual_step` preserves the combined contributed equity. -/
theorem dual_step_eq_sum (lev fee2 slm2 : ℚ) (prev : LegState × LegState)
    (o : DualObs) :
    (dual_step lev fee2 slm2 prev o).1.eq + (dual_step lev fee2 slm2 prev o).2.eq =
      prev.1.eq + prev.2.eq := by
  unfold dual_step
  split
  · dsimp only
    rw [make_trade_eq_proj, make_trade_eq_proj]
    ring
  · dsimp only
    rw [record_row_eq_proj, record_row_eq_proj]
    ring

/-- Dual scenario input: flat price, zero funding, three rows; with
leverage 20 and stop-loss margin 1/16 the freshly opened legs are
immediately stopped out, so step 2 is a rebalancing step. -/
def dfD : List DualObs := [⟨100, 0, 0⟩, ⟨100, 0, 0⟩, ⟨100, 0, 0⟩]

/-- The long leg right after the first trade of the dual scenario. -/
def legT1L : LegState :=
  { is_trade := true
    inj := 0
    eq := 1 / 2
    clt := 1 / 2
    leverage := 20
    entry := 100
    pos_size := 1 / 10
    d := 1
    change := 0
    change_pnl := 0
    funding := 0
    funding_pnl := 0
    margin := 1 / 2
    mm_sl := 5 / 8
    is_sl := true
    fee := 0
    pnl := 0 }

/-- The short leg right after the first trade of the dual scenario. -/
def legT1S : LegState :=
  { is_trade := true
    inj := 0
    eq := 1 / 2
    clt := 1 / 2
    leverage := 20
    entry := 100
    pos_size := -(1 / 10)
    d := -1
    change := 0
    change_pnl := 0
    funding := 0
    funding_pnl := 0
    margin := 1 / 2
    mm_sl := 5 / 8
    is_sl := true
    fee := 0
    pnl := 0 }

theorem dual_tradeL :
    make_trade 100 20 (init_backtest_df (1 / 2) 20) 0 0.0625 Side.long 0 = legT1L := by
  simp only [make_trade, init_backtest_df, legT1L]
  norm_num [max_def]

theorem dual_tradeS :
    make_trade 100 20 (init_backtest_df (1 / 2) 20) 0 0.0625 Side.short 0 = legT1S := by
  have hside : ¬(Side.short = Side.long) := by decide
  simp only [make_trade, init_backtest_df, legT1S]
  norm_num [max_def, hside]

theorem dual_stepD2 :
    dual_step 20 0 0.0625 (legT1L, legT1S) ⟨100, 0, 0⟩ = (legT1L, legT1S) := by
  have hside : ¬(Side.short = Side.long) := by decide
  unfold dual_step
  rw [if_pos (by simp [legT1L])]
  dsimp only
  rw [Prod.mk.injEq]
  constructor
  · simp only [make_trade, legT1L, legT1S]
    norm_num [max_def]
  · simp only [make_trade, legT1L, legT1S]
    norm_num [max_def, hside]

theorem ledgerD_eq :
    get_dual_backtest_result dfD 20 1 0 0.0625 =
      [(init_backtest_df (1 / 2) 20, init_backtest_df (1 / 2) 20),
        (legT1L, legT1S), (legT1L, legT1S)] := by
  unfold get_dual_backtest_result dfD
  dsimp only
  rw [dual_tradeL, dual_tradeS]
  simp only [List.scanl_cons, List.scanl_nil, List.singleton_append]
  rw [dual_stepD2]

theorem ledger_cons_eq (o0 : Obs) (rest : List Obs) (l fee maint slm : ℚ) :
    get_backtest_result (o0 :: rest) l fee maint slm =
      List.scanl (step l fee maint slm) (initState l fee maint slm) rest := rfl

theorem dual_ledger_one (o0 : DualObs) (lev init_clt fee2 slm2 : ℚ) :
    get_dual_backtest_result [o0] lev init_clt fee2 slm2 =
      [(init_backtest_df (init_clt / 2) lev, init_backtest_df (init_clt / 2) lev)] :=
  rfl

theorem dual_ledger_cons (o0 o1 : DualObs) (rest2 : List DualObs)
    (lev init_clt fee2 slm2 : ℚ) :
    get_dual_backtest_result (o0 :: o1 :: rest2) lev init_clt fee2 slm2 =
      (init_backtest_df (init_clt / 2) lev, init_backtest_df (init_clt / 2) lev) ::
        List.scanl (dual_step lev fee2 slm2)
          (make_trade o1.close lev (init_backtest_df (init_clt / 2) lev) fee2 slm2
              Side.long 0,
            make_trade o1.close lev (init_backtest_df (init_clt / 2) lev) fee2 slm2
              Side.short 0)
          rest2 := rfl

/-- Fee charged on an active row is nonzero exactly when one of the two
risk triggers of that same row fired. -/
theorem step_fee_ne_iff (l fee maint slm : ℚ) (hf : 0 < fee) (hl : 0 < l)
    (s : AccountState) (o : Obs) :
    (step l fee maint slm s o).fee ≠ 0 ↔
      ((step l fee maint slm s o).is_liq = true ∨
        (step l fee maint slm s o).is_sl = true) := by
  have hfl : -fee * l ≠ 0 := by
    rw [neg_mul, neg_ne_zero]
    exact (mul_pos hf hl).ne'
  rcases step_cases l fee maint slm s o with heq | ⟨nc, _, heq⟩ <;> rw [heq]
  · simp [deadState]
  · rw [activeStep_fee_eq]
    cases hb : ((activeStep l fee maint slm s o (decide (s.fee ≠ 0)) nc).is_liq ||
        (activeStep l fee maint slm s o (decide (s.fee ≠ 0)) nc).is_sl) with
    | false =>
        have hab := Bool.or_eq_false_iff.mp hb
        refine iff_of_false (by simp) ?_
        rw [hab.1, hab.2]
        simp
    | true =>
        exact iff_of_true (by simpa using hfl) (by simpa using hb)

theorem zipWith_drawdown_head (e : ℚ) (es : List ℚ) :
    ∃ ds, List.zipWith (fun e m => (e - m) / m) (e :: es) (cummax (e :: es)) =
      0 :: ds := by
  cases es with
  | nil => exact ⟨[], by simp [cummax]⟩
  | cons b t =>
      refine ⟨List.zipWith (fun e m => (e - m) / m) (b :: t)
        (List.scanl max (max e b) t), ?_⟩
      simp only [cummax, List.scanl_cons, List.singleton_append,
        List.zipWith_cons_cons]
      rw [sub_self, zero_div]

theorem scaleCloses_cons (lam : ℚ) (r : PriceRow) (l : List PriceRow) :
    scaleCloses lam (r :: l) =
      { r with close := lam * r.close } :: scaleCloses lam l := rfl

theorem insert_scale_comm (lam : ℚ) (r : PriceRow) :
    ∀ l : List PriceRow,
      insertByDatetime { r with close := lam * r.close } (scaleCloses lam l) =
        scaleCloses lam (insertByDatetime r l)
  | [] => rfl
  | x :: xs => by
      rw [scaleCloses_cons]
      unfold insertByDatetime
      dsimp only
      by_cases h : r.datetime ≤ x.datetime
      · rw [if_pos h, if_pos h, scaleCloses_cons, scaleCloses_cons]
      · rw [if_neg h, if_neg h, scaleCloses_cons, insert_scale_comm lam r xs]

theorem sort_scale_comm (lam : ℚ) :
    ∀ l : List PriceRow,
      sortByDatetime (scaleCloses lam l) = scaleCloses lam (sortByDatetime l)
  | [] => rfl
  | x :: xs => by
      rw [scaleCloses_cons]
      unfold sortByDatetime
      rw [sort_scale_comm lam xs, insert_scale_comm lam x (sortByDatetime xs)]

/-- Claim C1: Scenario A (flat price 100, zero funding, leverage 5, fee
0.001, maintenance margin 0.05, stop-loss margin 0.0625): step 0 holds
unit capital and the opening fee -0.005; step 1 holds capital 0.995,
zero change P&L, margin ratio 1, no risk triggers and final P&L -0.005;
step 2 equals step 1 (fee drag only). -/
theorem scenarioA_values :
    ((get_backtest_result dfA 5 0.001 0.05 0.0625)[0]!).clt = 1 ∧
    ((get_backtest_result dfA 5 0.001 0.05 0.0625)[0]!).fee = -0.005 ∧
    ((get_backtest_result dfA 5 0.001 0.05 0.0625)[1]!).clt = 0.995 ∧
    ((get_backtest_result dfA 5 0.001 0.05 0.0625)[1]!).change_pnl = 0 ∧
    ((get_backtest_result dfA 5 0.001 0.05 0.0625)[1]!).margin = 1 ∧
    ((get_backtest_result dfA 5 0.001 0.05 0.0625)[1]!).is_liq = false ∧
    ((get_backtest_result dfA 5 0.001 0.05 0.0625)[1]!).is_sl = false ∧
    ((get_backtest_result dfA 5 0.001 0.05 0.0625)[1]!).final_pnl = -0.005 ∧
    (get_backtest_result dfA 5 0.001 0.05 0.0625)[2]! =
      (get_backtest_result dfA 5 0.001 0.05 0.0625)[1]! := by
  rw [ledgerA_eq]
  norm_num [initState, stateA1]

/-- Claim C2: in the single-leg ledger, a zero-capital row is absorbing:
every strictly later row has zero capital and final P&L -1, for every
input sequence and policy. -/
theorem capital_zero_absorbing (input_df : List Obs) (l fee maint slm : ℚ)
    (t t' : ℕ) (htt : t < t')
    (ht' : t' < (get_backtest_result input_df l fee maint slm).length)
    (h0 : ((get_backtest_result input_df l fee maint slm)[t]!).clt = 0) :
    ((get_backtest_result input_df l fee maint slm)[t']!).clt = 0 ∧
      ((get_backtest_result input_df l fee maint slm)[t']!).final_pnl = -1 := by
  match input_df with
  | [] => simp [get_backtest_result] at ht'
  | o0 :: rest =>
      rw [ledger_cons_eq] at ht' h0 ⊢
      refine scanl_step_absorbing l fee maint slm rest _ ?_ t t' htt ht' h0
      intro hcon
      have hone : (1 : ℚ) = 0 := hcon
      norm_num at hone

theorem capital_zero_absorbing_witness :
    ((get_backtest_result dfW 1 1 0.05 0.0625)[1]!).clt = 0 ∧
      (((get_backtest_result dfW 1 1 0.05 0.0625)[2]!).clt = 0 ∧
        ((get_backtest_result dfW 1 1 0.05 0.0625)[2]!).final_pnl = -1) :=
  ⟨by rw [ledgerW_eq]; simp [deadState],
    capital_zero_absorbing dfW 1 1 0.05 0.0625 1 2 (by norm_num)
      (by rw [ledgerW_eq]; norm_num)
      (by rw [ledgerW_eq]; simp [deadState])⟩

/-- Claim C3 counterexample: in the crash scenario the fee at step 2 is
nonzero although neither risk trigger fired at step 1, refuting the
claim that fees occur exactly at step 0 and one step after a trigger. -/
theorem fee_without_prior_trigger :
    ((get_backtest_result df3 5 0.001 0.05 0.0625)[2]!).fee ≠ 0 ∧
      ((get_backtest_result df3 5 0.001 0.05 0.0625)[1]!).is_liq = false ∧
      ((get_backtest_result df3 5 0.001 0.05 0.0625)[1]!).is_sl = false := by
  rw [ledger3_eq]
  norm_num [stateA1, state3]

/-- Claim C3 amended: with positive fee rate and leverage, the fee of
row t is nonzero exactly at step 0 and at those steps whose own risk
trigger (liquidation or stop-loss) fires. -/
theorem fee_nonzero_iff_trigger (input_df : List Obs) (l fee maint slm : ℚ)
    (hf : 0 < fee) (hl : 0 < l) (t : ℕ)
    (ht : t < (get_backtest_result input_df l fee maint slm).length) :
    ((get_backtest_result input_df l fee maint slm)[t]!).fee ≠ 0 ↔
      (t = 0 ∨ ((get_backtest_result input_df l fee maint slm)[t]!).is_liq = true ∨
        ((get_backtest_result input_df l fee maint slm)[t]!).is_sl = true) := by
  match input_df with
  | [] => simp [get_backtest_result] at ht
  | o0 :: rest =>
      rw [ledger_cons_eq] at ht ⊢
      match t with
      | 0 =>
          rw [scanl_getElem!_zero]
          have hfee : (initState l fee maint slm).fee ≠ 0 := by
            show -fee * l ≠ 0
            rw [neg_mul, neg_ne_zero]
            exact (mul_pos hf hl).ne'
          exact iff_of_true hfee (Or.inl rfl)
      | t + 1 =>
          rw [scanl_getElem!_succ (step l fee maint slm) rest
            (initState l fee maint slm) t ht]
          rw [step_fee_ne_iff l fee maint slm hf hl]
          simp

theorem fee_nonzero_iff_trigger_witness :
    (0 : ℚ) < 0.001 ∧
      (((get_backtest_result df3 5 0.001 0.05 0.0625)[2]!).fee ≠ 0 ↔
        (2 = 0 ∨ ((get_backtest_result df3 5 0.001 0.05 0.0625)[2]!).is_liq = true ∨
          ((get_backtest_result df3 5 0.001 0.05 0.0625)[2]!).is_sl = true)) :=
  ⟨by norm_num,
    fee_nonzero_iff_trigger df3 5 0.001 0.05 0.0625 (by norm_num) (by norm_num) 2
      (by rw [ledger3_eq]; norm_num)⟩

/-- Claim C4: capital is non-negative at every row of the single-leg
ledger, and at every row of both legs of the dual-leg ledger when the
initial capital is non-negative. -/
theorem capital_nonneg_both (input_df : List Obs) (l fee maint slm : ℚ)
    (ddf : List DualObs) (lev init_clt fee2 slm2 : ℚ) (hinit : 0 ≤ init_clt) :
    (∀ x ∈ get_backtest_result input_df l fee maint slm, 0 ≤ x.clt) ∧
      (∀ pq ∈ get_dual_backtest_result ddf lev init_clt fee2 slm2,
        0 ≤ pq.1.clt ∧ 0 ≤ pq.2.clt) := by
  have hhalf : 0 ≤ init_clt / 2 := div_nonneg hinit (by norm_num)
  constructor
  · intro x hx
    match input_df with
    | [] => simp [get_backtest_result] at hx
    | o0 :: rest =>
        rw [ledger_cons_eq] at hx
        rcases mem_scanl _ rest _ x hx with rfl | ⟨s, o, rfl⟩
        · norm_num [initState]
        · exact step_clt_nonneg l fee maint slm s o
  · intro pq hpq
    match ddf with
    | [] => simp [get_dual_backtest_result] at hpq
    | [o0] =>
        rw [dual_ledger_one] at hpq
        simp only [List.mem_singleton] at hpq
        subst hpq
        exact ⟨hhalf, hhalf⟩
    | o0 :: o1 :: rest2 =>
        rw [dual_ledger_cons] at hpq
        rcases List.mem_cons.mp hpq with rfl | hmem
        · exact ⟨hhalf, hhalf⟩
        · exact scanl_invariant _ (fun pq => 0 ≤ pq.1.clt ∧ 0 ≤ pq.2.clt)
            (fun s a hs => dual_step_clt_nonneg lev fee2 slm2 s a hs) rest2 _
            ⟨make_trade_clt_nonneg _ _ _ _ _ _ _,
              make_trade_clt_nonneg _ _ _ _ _ _ _⟩ pq hmem

theorem capital_nonneg_both_witness :
    (0 : ℚ) ≤ 1 ∧ 0 ≤ (initState 5 0.001 0.05 0.0625).clt ∧
      (0 ≤ (init_backtest_df (1 / 2) 20, init_backtest_df (1 / 2) 20).1.clt ∧
        0 ≤ (init_backtest_df (1 / 2) 20, init_backtest_df (1 / 2) 20).2.clt) :=
  ⟨by norm_num,
    (capital_nonneg_both dfA 5 0.001 0.05 0.0625 dfD 20 1 0 0.0625 (by norm_num)).1
      (initState 5 0.001 0.05 0.0625)
      (by rw [ledgerA_eq]; exact List.mem_cons_self _ _),
    (capital_nonneg_both dfA 5 0.001 0.05 0.0625 dfD 20 1 0 0.0625 (by norm_num)).2
      (init_backtest_df (1 / 2) 20, init_backtest_df (1 / 2) 20)
      (by rw [ledgerD_eq]; exact List.mem_cons_self _ _)⟩

/-- Claim C5 counterexample: an invalid policy (non-positive leverage,
fee outside [0,1) and margin fractions outside (0,1)) is not rejected:
the engine still runs and produces a one-row ledger with the bootstrap
capital. -/
theorem invalid_policy_not_rejected :
    (get_backtest_result [⟨100, 0⟩] (-1) 2 3 4).length = 1 ∧
      ((get_backtest_result [⟨100, 0⟩] (-1) 2 3 4)[0]!).clt = 1 := by
  constructor
  · rfl
  · rw [ledger_cons_eq, scanl_getElem!_zero]
    rfl

/-- Claim C5 amended: the engine performs no policy validation: for
every leverage, fee and margin parameters (valid or not) it produces a
ledger with exactly one row per input observation. -/
theorem engine_no_validation (input_df : List Obs) (l fee maint slm : ℚ) :
    (get_backtest_result input_df l fee maint slm).length = input_df.length := by
  cases input_df with
  | nil => rfl
  | cons o0 rest => rw [ledger_cons_eq, List.length_scanl, List.length_cons]

/-- Claim C6: in the dual-leg engine the two injections of any
rebalancing step (a step following a stop-loss on either leg) sum to
zero, and the contributed equities of the two legs sum to the initial
capital at every row. -/
theorem dual_zero_sum (ddf : List DualObs) (lev init_clt fee2 slm2 : ℚ) :
    (∀ t : ℕ, t + 1 < (get_dual_backtest_result ddf lev init_clt fee2 slm2).length →
      (((get_dual_backtest_result ddf lev init_clt fee2 slm2)[t]!).1.is_sl = true ∨
        ((get_dual_backtest_result ddf lev init_clt fee2 slm2)[t]!).2.is_sl = true) →
      ((get_dual_backtest_result ddf lev init_clt fee2 slm2)[t + 1]!).1.inj +
        ((get_dual_backtest_result ddf lev init_clt fee2 slm2)[t + 1]!).2.inj = 0) ∧
      (∀ pq ∈ get_dual_backtest_result ddf lev init_clt fee2 slm2,
        pq.1.eq + pq.2.eq = init_clt) := by
  constructor
  · intro t ht hsl
    match ddf, t with
    | [], t => simp [get_dual_backtest_result] at ht
    | [o0], t =>
        rw [dual_ledger_one] at ht
        simp at ht
    | o0 :: o1 :: rest2, 0 =>
        rw [dual_ledger_cons] at hsl
        simp only [List.getElem!_cons_zero] at hsl
        rcases hsl with h | h <;> simp [init_backtest_df] at h
    | o0 :: o1 :: rest2, t + 1 =>
        rw [dual_ledger_cons] at ht hsl ⊢
        simp only [List.getElem!_cons_succ] at hsl ⊢
        simp only [List.length_cons, List.length_scanl] at ht
        rw [scanl_getElem!_succ (dual_step lev fee2 slm2) rest2 _ t
          (by simp only [List.length_scanl]; omega)]
        exact dual_step_inj_sum lev fee2 slm2 _ _ hsl
  · intro pq hpq
    match ddf with
    | [] => simp [get_dual_backtest_result] at hpq
    | [o0] =>
        rw [dual_ledger_one] at hpq
        simp only [List.mem_singleton] at hpq
        subst hpq
        show init_clt / 2 + init_clt / 2 = init_clt
        ring
    | o0 :: o1 :: rest2 =>
        rw [dual_ledger_cons] at hpq
        rcases List.mem_cons.mp hpq with rfl | hmem
        · show init_clt / 2 + init_clt / 2 = init_clt
          ring
        · refine scanl_invariant _ (fun pq => pq.1.eq + pq.2.eq = init_clt)
            (fun s a hs => by
              show (dual_step lev fee2 slm2 s a).1.eq +
                (dual_step lev fee2 slm2 s a).2.eq = init_clt
              rw [dual_step_eq_sum]
              exact hs) rest2 _ ?_ pq hmem
          dsimp only
          rw [make_trade_eq_proj, make_trade_eq_proj]
          show init_clt / 2 + 0 + (init_clt / 2 + 0) = init_clt
          ring

theorem dual_zero_sum_witness :
    ((get_dual_backtest_result dfD 20 1 0 0.0625)[1]!).1.is_sl = true ∧
      ((get_dual_backtest_result dfD 20 1 0 0.0625)[2]!).1.inj +
        ((get_dual_backtest_result dfD 20 1 0 0.0625)[2]!).2.inj = 0 ∧
      ((get_dual_backtest_result dfD 20 1 0 0.0625)[0]!).1.eq +
        ((get_dual_backtest_result dfD 20 1 0 0.0625)[0]!).2.eq = 1 :=
  ⟨by rw [ledgerD_eq]; simp [legT1L],
    (dual_zero_sum dfD 20 1 0 0.0625).1 1 (by rw [ledgerD_eq]; norm_num)
      (Or.inl (by rw [ledgerD_eq]; simp [legT1L])),
    (dual_zero_sum dfD 20 1 0 0.0625).2
      ((get_dual_backtest_result dfD 20 1 0 0.0625)[0]!)
      (by rw [ledgerD_eq]; simp)⟩

/-- Claim C7: on every non-empty P&L series the maximum drawdown is
defined and non-positive. -/
theorem max_drawdown_nonpos (series : List ℚ) (hne : series ≠ []) :
    ∃ v, max_drawdown series = some v ∧ v ≤ 0 := by
  match series with
  | [] => exact absurd rfl hne
  | s :: rest =>
      obtain ⟨ds, hds⟩ := zipWith_drawdown_head (s + 1) (rest.map (· + 1))
      refine ⟨ds.foldl min 0, ?_, foldl_min_le ds 0⟩
      unfold max_drawdown
      dsimp only
      rw [List.map_cons]
      rw [hds]

theorem max_drawdown_nonpos_witness :
    ([0.1, -0.5] : List ℚ) ≠ [] ∧
      ∃ v, max_drawdown [0.1, -0.5] = some v ∧ v ≤ 0 :=
  ⟨by simp, max_drawdown_nonpos [0.1, -0.5] (by simp)⟩

/-- Claim C8: the hold-baseline P&L column is invariant under uniform
scaling of every close by a positive factor. -/
theorem hodl_scale_invariant (input_df : List PriceRow) (lam : ℚ)
    (hlam : 0 < lam) (hne : input_df ≠ []) :
    get_hodl_result (scaleCloses lam input_df) = get_hodl_result input_df := by
  unfold get_hodl_result
  rw [sort_scale_comm lam input_df]
  dsimp only
  cases hs : sortByDatetime input_df with
  | nil => rfl
  | cons first rest =>
      rw [scaleCloses_cons]
      dsimp only
      rw [List.map_cons, List.map_cons]
      unfold scaleCloses
      rw [List.map_map]
      have hfun :
          ((fun r : PriceRow => (r.close - lam * first.close) / (lam * first.close)) ∘
            (fun r : PriceRow => { r with close := lam * r.close })) =
          fun r : PriceRow => (r.close - first.close) / first.close := by
        funext r
        dsimp only [Function.comp]
        rw [← mul_sub, mul_div_mul_left _ _ (ne_of_gt hlam)]
      rw [hfun]
      refine congrArg₂ List.cons ?_ rfl
      rw [← mul_sub, mul_div_mul_left _ _ (ne_of_gt hlam)]

/-- Scale-invariance witness input, deliberately unsorted by datetime. -/
def dfH : List PriceRow := [⟨1, 110⟩, ⟨0, 100⟩]

theorem hodl_scale_invariant_witness :
    (0 : ℚ) < 2 ∧ get_hodl_result (scaleCloses 2 dfH) = get_hodl_result dfH :=
  ⟨by norm_num, hodl_scale_invariant dfH 2 (by norm_num) (by simp [dfH])⟩

/-- Claim C9: whenever the maintenance margin does not exceed the
stop-loss margin and leverage is positive, a liquidated row of the
single-leg ledger is also stopped out. -/
theorem liq_implies_sl (input_df : List Obs) (l fee maint slm : ℚ)
    (hm : maint ≤ slm) (hl : 0 < l) :
    ∀ x ∈ get_backtest_result input_df l fee maint slm,
      x.is_liq = true → x.is_sl = true := by
  intro x hx
  match input_df with
  | [] => simp [get_backtest_result] at hx
  | o0 :: rest =>
      rw [ledger_cons_eq] at hx
      rcases mem_scanl _ rest _ x hx with rfl | ⟨s, o, rfl⟩
      · intro h
        simp [initState] at h
      · rcases step_cases l fee maint slm s o with heq | ⟨nc, _, heq⟩ <;> rw [heq]
        · intro h
          simp [deadState] at h
        · intro hliq
          rw [activeStep_is_liq_eq, decide_eq_true_eq, activeStep_mm_eq] at hliq
          rw [activeStep_is_sl_eq, decide_eq_true_eq, activeStep_mm_sl_eq]
          refine lt_of_lt_of_le hliq (mul_le_mul_of_nonneg_left hm ?_)
          refine mul_nonneg ?_ hl.le
          rw [activeStep_clt_eq]
          exact le_max_right _ _

theorem liq_implies_sl_witness :
    (0.05 : ℚ) ≤ 0.0625 ∧ state3.is_sl = true :=
  ⟨by norm_num,
    liq_implies_sl df3 5 0.001 0.05 0.0625 (by norm_num) (by norm_num) state3
      (by rw [ledger3_eq]; simp) rfl⟩

/-- Claim C10: a freshly opened dual-leg position with strictly positive
post-fee capital is flagged stopped out exactly when leverage times the
stop-loss margin exceeds one, independently of price, funding, side and
injection. -/
theorem make_trade_sl_iff (close rowLev fee_percent slm inj : ℚ)
    (prev : LegState) (side : Side)
    (hpos : 0 < (make_trade close rowLev prev fee_percent slm side inj).clt) :
    ((make_trade close rowLev prev fee_percent slm side inj).is_sl = true ↔
      1 < rowLev * slm) := by
  rw [make_trade_is_sl_proj, decide_eq_true_eq, mul_assoc]
  exact lt_mul_iff_one_lt_right hpos

theorem make_trade_sl_iff_witness :
    0 < (make_trade 100 5 (init_backtest_df 1 5) 0.001 0.3 Side.long 0).clt ∧
      ((make_trade 100 5 (init_backtest_df 1 5) 0.001 0.3 Side.long 0).is_sl = true ↔
        1 < (5 : ℚ) * 0.3) :=
  ⟨by norm_num [make_trade, init_backtest_df, max_def],
    make_trade_sl_iff 100 5 0.001 0.3 0 (init_backtest_df 1 5) Side.long
      (by norm_num [make_trade, init_backtest_df, max_def])⟩

end FundingRateAnalysis
